import Mathlib

/-!
Verification of the MorrisII propagation/infection engine (MorrisII.cpp).

The C++ source is shallowly embedded: `std::string` becomes `List Char`,
`std::string::find` becomes `strFind` (returning `Option Nat`; the source's
`npos` sentinel and the `size_t` wraparound of `npos + 1` are modelled
explicitly where the source does arithmetic on the find result),
`std::map<std::string, std::set<std::string>>` becomes an association list
whose values are duplicate-free lists, and every file write performed by the
program becomes an explicit `Event` in an output trace.  The global state
(`contacts`, `connected_systems`, `infected_systems`) becomes a `WormState`
record threaded through the phases of `Run`.
-/

namespace MorrisII

open List (Sublist)

open scoped List

/-- C++ `std::string`, modelled as a list of characters. -/
abbrev CppStr := List Char

/-- `std::string::npos` as a `size_t` value: `2 ^ 64 - 1`. -/
def NPOS : Nat := 2 ^ 64 - 1

/-- Model of `s.find(pat)` for `std::string`: the least index at which `pat`
occurs as a contiguous substring of `s`, or `none` when there is no
occurrence (the source compares the result against `npos`). -/
def strFind (s pat : CppStr) : Option Nat :=
  match s with
  | [] => if pat.isPrefixOf [] then some 0 else none
  | a :: s' =>
      if pat.isPrefixOf (a :: s') then some 0
      else (strFind s' pat).map (· + 1)

/-- The fixed adversarial marker from `IsAdversarialPrompt`. -/
def advKeyword : CppStr := "adversarial_keyword".toList

/-- Source line 26-29: `IsAdversarialPrompt` returns whether
`email.find("adversarial_keyword") != std::string::npos`. -/
def IsAdversarialPrompt (email : CppStr) : Bool :=
  (strFind email advKeyword).isSome

theorem strFind_isSome_iff (s pat : CppStr) :
    (strFind s pat).isSome = true ↔ pat <:+: s := by
  induction s with
  | nil =>
      cases pat with
      | nil => simp [strFind, List.isPrefixOf]
      | cons b bs => simp [strFind, List.isPrefixOf]
  | cons a s' ih =>
      by_cases hp : pat.isPrefixOf (a :: s') = true
      · have hpre : pat <+: a :: s' := by
          simpa using hp
        simp [strFind, hp, List.infix_cons_iff, hpre]
      · have hnp : ¬ pat <+: a :: s' := by
          simpa using hp
        simp [strFind, hp, List.infix_cons_iff, hnp, ih]

/-- Source line 84-86 of `IdentifyConnectedSystems`:
`delimiter_pos = line.find(" ")`, `host = line.substr(0, delimiter_pos)`,
`connected_system = line.substr(delimiter_pos + 1)`.  When no space is found,
`delimiter_pos` is `npos` and `delimiter_pos + 1` wraps around to `0` in
`size_t` arithmetic, which the `% 2 ^ 64` makes explicit. -/
def parseTopoLine (line : CppStr) : CppStr × CppStr :=
  let delimiterPos := (strFind line [' ']).getD NPOS
  (line.take delimiterPos, line.drop ((delimiterPos + 1) % 2 ^ 64))

/-- The in-memory shape of `std::map<std::string, std::set<std::string>>`:
an association list from host to its duplicate-free list of neighbors. -/
abbrev TopoMap := List (CppStr × List CppStr)

/-- `std::set<std::string>::insert`: adds the element unless already present. -/
def setInsert (s : List CppStr) (x : CppStr) : List CppStr :=
  if x ∈ s then s else s ++ [x]

/-- `connected_systems[host].insert(neighbor)`: `operator[]` creates the
entry on first access, then `insert` adds the neighbor to its set. -/
def topoInsert (m : TopoMap) (h n : CppStr) : TopoMap :=
  match m with
  | [] => [(h, [n])]
  | (k, s) :: rest =>
      if k = h then (k, setInsert s n) :: rest
      else (k, s) :: topoInsert rest h n

/-- One iteration of the `while (std::getline(...))` loop in
`IdentifyConnectedSystems` (source lines 83-88). -/
def topoStep (m : TopoMap) (line : CppStr) : TopoMap :=
  let hn := parseTopoLine line
  topoInsert m hn.1 hn.2

/-- Source lines 79-89: reads the topology lines and inserts each parsed
`(host, neighbor)` pair into the map, starting from the current global map
`m` (empty at the start of a run). -/
def IdentifyConnectedSystems (m : TopoMap) (lines : List CppStr) : TopoMap :=
  lines.foldl topoStep m

/-- `std::map::find`-style lookup on the association list. -/
def lookupTopo : TopoMap → CppStr → Option (List CppStr)
  | [], _ => none
  | (k, s) :: rest, h => if k = h then some s else lookupTopo rest h

/-- The neighbor set of `host` (empty when the host is absent). -/
def neighbors_of (m : TopoMap) (h : CppStr) : List CppStr :=
  (lookupTopo m h).getD []

theorem mem_setInsert (s : List CppStr) (x n : CppStr) :
    n ∈ setInsert s x ↔ n ∈ s ∨ n = x := by
  by_cases hx : x ∈ s
  · simp only [setInsert, if_pos hx]
    constructor
    · exact fun h => Or.inl h
    · rintro (h | rfl)
      · exact h
      · exact hx
  · simp [setInsert, if_neg hx]

theorem lookupTopo_topoInsert_self (m : TopoMap) (h n : CppStr) :
    lookupTopo (topoInsert m h n) h = some (setInsert (neighbors_of m h) n) := by
  induction m with
  | nil => simp [topoInsert, lookupTopo, neighbors_of, setInsert]
  | cons p rest ih =>
      obtain ⟨k, s⟩ := p
      by_cases hk : k = h
      · subst hk
        simp [topoInsert, lookupTopo, neighbors_of]
      · simp [topoInsert, hk, lookupTopo, neighbors_of, ih]

theorem lookupTopo_topoInsert_ne (m : TopoMap) (h' n' h : CppStr) (hne : h ≠ h') :
    lookupTopo (topoInsert m h' n') h = lookupTopo m h := by
  induction m with
  | nil => simp [topoInsert, lookupTopo, Ne.symm hne]
  | cons p rest ih =>
      obtain ⟨k, s⟩ := p
      by_cases hk : k = h'
      · subst hk
        simp [topoInsert, lookupTopo, Ne.symm hne]
      · simp [topoInsert, hk, lookupTopo, ih]

theorem mem_neighbors_topoInsert (m : TopoMap) (h' n' h n : CppStr) :
    n ∈ neighbors_of (topoInsert m h' n') h ↔
      (h = h' ∧ n = n') ∨ n ∈ neighbors_of m h := by
  by_cases hh : h = h'
  · subst hh
    simp only [neighbors_of, lookupTopo_topoInsert_self, Option.getD_some, mem_setInsert]
    tauto
  · simp only [neighbors_of, lookupTopo_topoInsert_ne m h' n' h hh]
    simp [hh]

theorem mem_neighbors_build (lines : List CppStr) (m : TopoMap) (h n : CppStr) :
    n ∈ neighbors_of (IdentifyConnectedSystems m lines) h ↔
      (h, n) ∈ lines.map parseTopoLine ∨ n ∈ neighbors_of m h := by
  induction lines generalizing m with
  | nil => simp [IdentifyConnectedSystems]
  | cons l rest ih =>
      have step : IdentifyConnectedSystems m (l :: rest) =
          IdentifyConnectedSystems (topoStep m l) rest := rfl
      rw [step, ih]
      simp only [List.map_cons, List.mem_cons, topoStep, mem_neighbors_topoInsert]
      constructor
      · rintro (hm | (⟨hh, hn⟩ | hm))
        · exact Or.inl (Or.inr hm)
        · subst hh; subst hn
          exact Or.inl (Or.inl rfl)
        · exact Or.inr hm
      · rintro ((he | hm) | hm)
        · refine Or.inr (Or.inl ?_)
          have : h = (parseTopoLine l).1 ∧ n = (parseTopoLine l).2 := by
            constructor
            · exact congrArg Prod.fst he
            · exact congrArg Prod.snd he
          exact this
        · exact Or.inl hm
        · exact Or.inr (Or.inr hm)

theorem lookupTopo_build_absent (lines : List CppStr) (m : TopoMap) (h : CppStr)
    (habs : ∀ l ∈ lines, (parseTopoLine l).1 ≠ h) :
    lookupTopo (IdentifyConnectedSystems m lines) h = lookupTopo m h := by
  induction lines generalizing m with
  | nil => rfl
  | cons l rest ih =>
      have step : IdentifyConnectedSystems m (l :: rest) =
          IdentifyConnectedSystems (topoStep m l) rest := rfl
      rw [step, ih _ (fun l' hl' => habs l' (List.mem_cons_of_mem _ hl'))]
      exact lookupTopo_topoInsert_ne _ _ _ _
        (fun hc => habs l (List.mem_cons_self _ _) hc.symm)

theorem strFind_singleton_eq_none (s : CppStr) (c : Char) :
    strFind s [c] = none ↔ c ∉ s := by
  induction s with
  | nil => simp [strFind, List.isPrefixOf]
  | cons a s' ih =>
      by_cases hc : c = a
      · subst hc
        simp [strFind, List.isPrefixOf]
      · simp [strFind, List.isPrefixOf, hc, Option.map_eq_none, ih]

theorem not_mem_take_of_strFind_singleton (s : CppStr) (c : Char) (i : Nat)
    (hf : strFind s [c] = some i) : c ∉ s.take i := by
  induction s generalizing i with
  | nil => simp [strFind] at hf
  | cons a s' ih =>
      by_cases hc : c = a
      · subst hc
        have : strFind (c :: s') [c] = some 0 := by
          simp [strFind, List.isPrefixOf]
        rw [this] at hf
        cases hf
        simp
      · have hstep : strFind (a :: s') [c] = (strFind s' [c]).map (· + 1) := by
          simp [strFind, List.isPrefixOf, hc]
        rw [hstep] at hf
        cases hj : strFind s' [c] with
        | none => rw [hj] at hf; simp at hf
        | some j =>
            rw [hj] at hf
            simp only [Option.map_some'] at hf
            cases hf
            simp only [List.take_succ_cons, List.mem_cons]
            rintro (h | h)
            · exact hc h
            · exact ih j hj h

theorem strFind_append_cons (h t : CppStr) (c : Char) (hc : c ∉ h) :
    strFind (h ++ c :: t) [c] = some h.length := by
  induction h with
  | nil => simp [strFind, List.isPrefixOf]
  | cons a h' ih =>
      have hca : c ≠ a := fun he => hc (he ▸ List.mem_cons_self a h')
      have hch : c ∉ h' := fun he => hc (List.mem_cons_of_mem a he)
      simp [strFind, List.isPrefixOf, hca, ih hch]

theorem parseTopoLine_wf (h t : CppStr) (hs : ' ' ∉ h)
    (hlen : h.length + 1 < 2 ^ 64) :
    parseTopoLine (h ++ ' ' :: t) = (h, t) := by
  have hfind := strFind_append_cons h t ' ' hs
  have hmod : (h.length + 1) % 2 ^ 64 = h.length + 1 := Nat.mod_eq_of_lt hlen
  have htake : (h ++ ' ' :: t).take h.length = h := List.take_left h (' ' :: t)
  have hdrop : (h ++ ' ' :: t).drop (h.length + 1) = t := by
    have hsplit : h ++ ' ' :: t = (h ++ [' ']) ++ t := by simp
    rw [hsplit]
    exact List.drop_left' (by simp)
  simp only [parseTopoLine, hfind, Option.getD_some, hmod, Prod.mk.injEq]
  exact ⟨htake, hdrop⟩

theorem parseTopoLine_no_space (line : CppStr)
    (hf : strFind line [' '] = none) (hlen : line.length ≤ NPOS) :
    parseTopoLine line = (line, line) := by
  have hmod : (NPOS + 1) % 2 ^ 64 = 0 := by
    have : NPOS + 1 = 2 ^ 64 := by
      simp [NPOS]
    rw [this, Nat.mod_self]
  simp only [parseTopoLine, hf, Option.getD_none, hmod, Prod.mk.injEq, List.drop_zero]
  exact ⟨List.take_of_length_le hlen, trivial⟩

theorem parse_host_no_space (line : CppStr) : ' ' ∉ (parseTopoLine line).1 := by
  cases hf : strFind line [' '] with
  | none =>
      have hline : ' ' ∉ line := (strFind_singleton_eq_none line ' ').mp hf
      simp only [parseTopoLine, hf, Option.getD_none]
      exact fun hmem => hline ((List.take_sublist _ _).mem hmem)
  | some i =>
      simp only [parseTopoLine, hf, Option.getD_some]
      exact not_mem_take_of_strFind_singleton line ' ' i hf

theorem setInsert_ne_nil (s : List CppStr) (x : CppStr) : setInsert s x ≠ [] := by
  by_cases hx : x ∈ s
  · intro he
    rw [setInsert, if_pos hx] at he
    subst he
    simp at hx
  · rw [setInsert, if_neg hx]
    simp

theorem setInsert_nodup (s : List CppStr) (x : CppStr) (hs : s.Nodup) :
    (setInsert s x).Nodup := by
  by_cases hx : x ∈ s
  · rw [setInsert, if_pos hx]; exact hs
  · rw [setInsert, if_neg hx]
    simpa [List.nodup_append, hs] using hx

theorem mem_topoInsert_cases (m : TopoMap) (h n : CppStr)
    (p : CppStr × List CppStr) (hp : p ∈ topoInsert m h n) :
    p ∈ m ∨ (p.1 = h ∧ p.2 = [n]) ∨
      (∃ s, (p.1, s) ∈ m ∧ p.2 = setInsert s n) := by
  induction m with
  | nil =>
      simp only [topoInsert, List.mem_singleton] at hp
      subst hp
      exact Or.inr (Or.inl ⟨rfl, rfl⟩)
  | cons q rest ih =>
      obtain ⟨k, s⟩ := q
      rw [topoInsert] at hp
      split at hp
      · rename_i hk
        rcases List.mem_cons.mp hp with rfl | hmem
        · exact Or.inr (Or.inr ⟨s, List.mem_cons_self _ _, rfl⟩)
        · exact Or.inl (List.mem_cons_of_mem _ hmem)
      · rcases List.mem_cons.mp hp with rfl | hmem
        · exact Or.inl (List.mem_cons_self _ _)
        · rcases ih hmem with hc | hc | ⟨s', hs', he⟩
          · exact Or.inl (List.mem_cons_of_mem _ hc)
          · exact Or.inr (Or.inl hc)
          · exact Or.inr (Or.inr ⟨s', List.mem_cons_of_mem _ hs', he⟩)

theorem topoInsert_entry_ne_nil (m : TopoMap) (h n : CppStr)
    (hm : ∀ p ∈ m, p.2 ≠ []) : ∀ p ∈ topoInsert m h n, p.2 ≠ [] := by
  intro p hp
  rcases mem_topoInsert_cases m h n p hp with hc | ⟨_, he⟩ | ⟨s, _, he⟩
  · exact hm p hc
  · rw [he]; simp
  · rw [he]; exact setInsert_ne_nil s n

theorem topoInsert_entry_nodup (m : TopoMap) (h n : CppStr)
    (hm : ∀ p ∈ m, p.2.Nodup) : ∀ p ∈ topoInsert m h n, p.2.Nodup := by
  intro p hp
  rcases mem_topoInsert_cases m h n p hp with hc | ⟨_, he⟩ | ⟨s, hs, he⟩
  · exact hm p hc
  · rw [he]; simp
  · rw [he]; exact setInsert_nodup s n (hm (p.1, s) hs)

theorem topoInsert_entry_host (m : TopoMap) (h n : CppStr) (hh : ' ' ∉ h)
    (hm : ∀ p ∈ m, ' ' ∉ p.1) : ∀ p ∈ topoInsert m h n, ' ' ∉ p.1 := by
  intro p hp
  rcases mem_topoInsert_cases m h n p hp with hc | ⟨he, _⟩ | ⟨s, hs, _⟩
  · exact hm p hc
  · rw [he]; exact hh
  · exact hm (p.1, s) hs

/-- The list of host keys of the map, in storage order. -/
def keysOf (m : TopoMap) : List CppStr := m.map Prod.fst

theorem mem_keysOf_topoInsert (m : TopoMap) (h n x : CppStr) :
    x ∈ keysOf (topoInsert m h n) ↔ x = h ∨ x ∈ keysOf m := by
  induction m with
  | nil => simp [topoInsert, keysOf]
  | cons q rest ih =>
      obtain ⟨k, s⟩ := q
      rw [topoInsert]
      split
      · rename_i hk
        subst hk
        simp only [keysOf, List.map_cons, List.mem_cons]
        tauto
      · simp only [keysOf, List.map_cons, List.mem_cons] at ih ⊢
        rw [ih]
        tauto

theorem keysOf_topoInsert_nodup (m : TopoMap) (h n : CppStr)
    (hm : (keysOf m).Nodup) : (keysOf (topoInsert m h n)).Nodup := by
  induction m with
  | nil => simp [topoInsert, keysOf]
  | cons q rest ih =>
      obtain ⟨k, s⟩ := q
      simp only [keysOf, List.map_cons, List.nodup_cons] at hm
      rw [topoInsert]
      split
      · rename_i hk
        subst hk
        simpa [keysOf, List.nodup_cons] using hm
      · rename_i hk
        simp only [keysOf, List.map_cons, List.nodup_cons]
        refine ⟨?_, ih hm.2⟩
        rw [show (topoInsert rest h n).map Prod.fst = keysOf (topoInsert rest h n) from rfl,
          mem_keysOf_topoInsert]
        rintro (rfl | hx)
        · exact hk rfl
        · exact hm.1 hx

theorem lookupTopo_mem (m : TopoMap) (h : CppStr) (s : List CppStr)
    (hl : lookupTopo m h = some s) : (h, s) ∈ m := by
  induction m with
  | nil => simp [lookupTopo] at hl
  | cons q rest ih =>
      obtain ⟨k, s'⟩ := q
      by_cases hk : k = h
      · subst hk
        rw [lookupTopo, if_pos rfl] at hl
        cases hl
        exact List.mem_cons_self _ _
      · rw [lookupTopo, if_neg hk] at hl
        exact List.mem_cons_of_mem _ (ih hl)

theorem build_entry_ne_nil (lines : List CppStr) (m : TopoMap)
    (hm : ∀ p ∈ m, p.2 ≠ []) :
    ∀ p ∈ IdentifyConnectedSystems m lines, p.2 ≠ [] := by
  induction lines generalizing m with
  | nil => exact hm
  | cons l rest ih =>
      exact ih (topoStep m l) (topoInsert_entry_ne_nil m _ _ hm)

theorem build_entry_nodup (lines : List CppStr) (m : TopoMap)
    (hm : ∀ p ∈ m, p.2.Nodup) :
    ∀ p ∈ IdentifyConnectedSystems m lines, p.2.Nodup := by
  induction lines generalizing m with
  | nil => exact hm
  | cons l rest ih =>
      exact ih (topoStep m l) (topoInsert_entry_nodup m _ _ hm)

theorem build_entry_host (lines : List CppStr) (m : TopoMap)
    (hm : ∀ p ∈ m, ' ' ∉ p.1) :
    ∀ p ∈ IdentifyConnectedSystems m lines, ' ' ∉ p.1 := by
  induction lines generalizing m with
  | nil => exact hm
  | cons l rest ih =>
      exact ih (topoStep m l)
        (topoInsert_entry_host m _ _ (parse_host_no_space l) hm)

theorem build_keys_nodup (lines : List CppStr) (m : TopoMap)
    (hm : (keysOf m).Nodup) :
    (keysOf (IdentifyConnectedSystems m lines)).Nodup := by
  induction lines generalizing m with
  | nil => exact hm
  | cons l rest ih =>
      exact ih (topoStep m l) (keysOf_topoInsert_nodup m _ _ hm)

/-- An observable output action of the program on its file-like sinks.
`openTrunc` is an `std::ofstream` constructor call in default (truncating)
mode, which creates or truncates the named file; `openAppend` is a
constructor call with `std::ios::app`; `write` is an `operator<<` emission
with no `std::endl`; `writeLine` is an emission of one line terminated by
`std::endl`. -/
inductive Event where
  | openTrunc (name : CppStr)
  | openAppend (name : CppStr)
  | write (name : CppStr) (data : CppStr)
  | writeLine (name : CppStr) (line : CppStr)
deriving DecidableEq, Repr

/-- The file names and literal strings appearing in the source. -/
def dataName : CppStr := "data.txt".toList

def stolenDataName : CppStr := "stolen_data.txt".toList

def spamSuffix : CppStr := "_spam_email.txt".toList

def replicatedSuffix : CppStr := "_replicated_email.txt".toList

def spamContent : CppStr := "This is a spam email.".toList

def replicatedMarker : CppStr := " replicated_prompt".toList

def transmissionLogName : CppStr := "transmission_log.txt".toList

def infectionLogName : CppStr := "infection_log.txt".toList

/-- The line `LogTransmission` appends: `host << " -> " << system`. -/
def transLine (h t : CppStr) : CppStr := h ++ " -> ".toList ++ t

/-- The line `LogInfection` appends: `host << " infected " << system`. -/
def infLine (h t : CppStr) : CppStr := h ++ " infected ".toList ++ t

/-- The external collaborators of one run: the line-oriented input files.
`none` models a missing/unopenable file, for which `std::getline` fails
immediately; output sinks are modelled as always openable. -/
structure Env where
  contactsFile : Option (List CppStr)
  systemsFile : Option (List CppStr)
  dataFile : Option (List CppStr)

/-- The lines a `while (std::getline(...))` loop reads from an input file:
none when the stream failed to open. -/
def linesOf : Option (List CppStr) → List CppStr
  | none => []
  | some ls => ls

/-- Source lines 40-50 (`StealData`): the `std::ofstream` for
`stolen_data.txt` is constructed (creating/truncating the file) before the
`if (data_stream && stolen_data_stream)` availability check; when `data.txt`
is unavailable the conditional copy loop is skipped silently. -/
def StealData (env : Env) : List Event :=
  Event.openTrunc stolenDataName ::
    match env.dataFile with
    | none => []
    | some ls => ls.map (fun l => Event.writeLine stolenDataName l)

/-- Source lines 53-63 (`SendSpamEmails`): one truncating open and one
write of the fixed placeholder per contact. -/
def SendSpamEmails (contacts : List CppStr) : List Event :=
  contacts.flatMap (fun c =>
    [Event.openTrunc (c ++ spamSuffix),
     Event.write (c ++ spamSuffix) spamContent])

/-- Source lines 66-76 (`ReplicatePrompt`): computes
`email + " replicated_prompt"` and writes it once per contact. -/
def ReplicatePrompt (contacts : List CppStr) (email : CppStr) : List Event :=
  contacts.flatMap (fun c =>
    [Event.openTrunc (c ++ replicatedSuffix),
     Event.write (c ++ replicatedSuffix) (email ++ replicatedMarker)])

/-- Source lines 32-37 (`ProcessAdversarialPrompt`): `StealData();
SendSpamEmails(); ReplicatePrompt(email);` in that order. -/
def ProcessAdversarialPrompt (env : Env) (contacts : List CppStr)
    (email : CppStr) : List Event :=
  StealData env ++ SendSpamEmails contacts ++ ReplicatePrompt contacts email

/-- Source lines 100-104 (`LogTransmission`): append-mode open of the
transmission log and one line `host << " -> " << system << std::endl`. -/
def LogTransmission (h t : CppStr) : List Event :=
  [Event.openAppend transmissionLogName,
   Event.writeLine transmissionLogName (transLine h t)]

/-- Source lines 107-111 (`LogInfection`): append-mode open of the
infection log and one line `host << " infected " << system << std::endl`. -/
def LogInfection (h t : CppStr) : List Event :=
  [Event.openAppend infectionLogName,
   Event.writeLine infectionLogName (infLine h t)]

/-- Source lines 92-97 (`SendPrompt`): `LogTransmission(host, system);
LogInfection(host, system);` — note `infected_systems` is not touched. -/
def SendPrompt (h t : CppStr) : List Event :=
  LogTransmission h t ++ LogInfection h t

/-- The global mutable state of namespace `MorrisII` (source lines 21-23)
together with the accumulated output trace of the run. -/
structure WormState where
  contacts : List CppStr
  connected_systems : TopoMap
  infected_systems : List CppStr
  trace : List Event
deriving DecidableEq, Repr

/-- All globals start empty at process start. -/
def initState : WormState :=
  { contacts := [], connected_systems := [], infected_systems := [],
    trace := [] }

/-- Source lines 114-125 (`Initialize`): push each line of `contacts.txt`
onto `contacts`, then run `IdentifyConnectedSystems` on
`connected_systems.txt`. -/
def Initialize (env : Env) (s : WormState) : WormState :=
  { s with
    contacts := s.contacts ++ linesOf env.contactsFile,
    connected_systems :=
      IdentifyConnectedSystems s.connected_systems (linesOf env.systemsFile) }

/-- The events emitted by the scan loop of `Run` (source lines 133-138):
for each contact, in order, the payload events when and only when
`IsAdversarialPrompt` holds. -/
def scanEvents (env : Env) (contacts : List CppStr) : List Event :=
  contacts.flatMap (fun email =>
    if IsAdversarialPrompt email then
      ProcessAdversarialPrompt env contacts email
    else [])

/-- The scan phase of `Run`: only the output trace changes. -/
def scanPhase (env : Env) (s : WormState) : WormState :=
  { s with trace := s.trace ++ scanEvents env s.contacts }

/-- The events emitted by the propagation loop of `Run` (source lines
141-146): `SendPrompt(host, system)` for every edge of the topology map. -/
def propEvents (m : TopoMap) : List Event :=
  m.flatMap (fun p => p.2.flatMap (fun t => SendPrompt p.1 t))

/-- The propagation phase of `Run`: only the output trace changes. -/
def propagatePhase (s : WormState) : WormState :=
  { s with trace := s.trace ++ propEvents s.connected_systems }

/-- Source lines 128-147 (`Run`): `Initialize`, then the scan loop, then
the propagation loop, once each. -/
def Run (env : Env) : WormState :=
  propagatePhase (scanPhase env (Initialize env initState))

/-- Source lines 151-154 (`main`): runs the worm once and returns exit
status `0`. -/
def mainFn (env : Env) : WormState × Nat :=
  (Run env, 0)

/-- The Infection Tracker query of the spec (`is_infected`), realised on
the source's `infected_systems` set as `std::set` membership. -/
def is_infected (s : WormState) (x : CppStr) : Bool :=
  x ∈ s.infected_systems

/-- All `(host, neighbor)` edges of the topology map, in iteration order. -/
def edgesOf (m : TopoMap) : List (CppStr × CppStr) :=
  m.flatMap (fun p => p.2.map (fun t => (p.1, t)))

/-- The transmission-ledger line event for one edge. -/
def trEv (h t : CppStr) : Event :=
  Event.writeLine transmissionLogName (transLine h t)

/-- The infection-ledger line event for one edge. -/
def infEv (h t : CppStr) : Event :=
  Event.writeLine infectionLogName (infLine h t)

theorem Run_trace (env : Env) :
    (Run env).trace =
      scanEvents env (linesOf env.contactsFile) ++
        propEvents (IdentifyConnectedSystems [] (linesOf env.systemsFile)) := rfl

theorem Run_contacts (env : Env) :
    (Run env).contacts = linesOf env.contactsFile := rfl

theorem Run_connected_systems (env : Env) :
    (Run env).connected_systems =
      IdentifyConnectedSystems [] (linesOf env.systemsFile) := rfl

theorem Run_infected_systems (env : Env) :
    (Run env).infected_systems = [] := rfl

theorem count_flatMap_eq {α β : Type} [DecidableEq β] (l : List α)
    (f : α → List β) (b : β) :
    (l.flatMap f).count b = (l.map fun a => (f a).count b).sum := by
  induction l with
  | nil => rfl
  | cons a l ih => simp [List.flatMap_cons, ih]

theorem sublist_flatMap_of_mem {α β : Type} (l : List α) (f : α → List β)
    (a : α) (ha : a ∈ l) : f a <+ l.flatMap f := by
  induction l with
  | nil => cases ha
  | cons x l ih =>
      rcases List.mem_cons.mp ha with rfl | ha'
      · rw [List.flatMap_cons]
        exact List.sublist_append_left (f a) (l.flatMap f)
      · refine (ih ha').trans ?_
        rw [List.flatMap_cons]
        exact List.sublist_append_right (f x) (l.flatMap f)

theorem split_first_space (h : CppStr) : ∀ h' u v : CppStr, ' ' ∉ h →
    ' ' ∉ h' → h ++ ' ' :: u = h' ++ ' ' :: v → h = h' ∧ u = v := by
  induction h with
  | nil =>
      intro h' u v _ hh' he
      cases h' with
      | nil => simpa using he
      | cons b h'' =>
          exfalso
          apply hh'
          simp only [List.nil_append, List.cons_append] at he
          injection he with h1 _
          rw [h1]
          exact List.mem_cons_self b h''
  | cons a h₀ ih =>
      intro h' u v hh hh' he
      cases h' with
      | nil =>
          exfalso
          apply hh
          simp only [List.cons_append, List.nil_append] at he
          injection he with h1 _
          rw [← h1]
          exact List.mem_cons_self a h₀
      | cons b h₁ =>
          simp only [List.cons_append] at he
          injection he with h1 h2
          have hh₀ : ' ' ∉ h₀ := fun hc => hh (List.mem_cons_of_mem a hc)
          have hh₁ : ' ' ∉ h₁ := fun hc => hh' (List.mem_cons_of_mem b hc)
          obtain ⟨he1, he2⟩ := ih h₁ u v hh₀ hh₁ h2
          exact ⟨by rw [h1, he1], he2⟩

theorem transLine_inj (h t h' t' : CppStr) (hh : ' ' ∉ h) (hh' : ' ' ∉ h')
    (he : transLine h t = transLine h' t') : h = h' ∧ t = t' := by
  have hsep : " -> ".toList = ' ' :: "-> ".toList := rfl
  have he' : h ++ ' ' :: ("-> ".toList ++ t) = h' ++ ' ' :: ("-> ".toList ++ t') := by
    simpa [transLine, hsep] using he
  obtain ⟨h1, h2⟩ := split_first_space h h' _ _ hh hh' he'
  exact ⟨h1, List.append_cancel_left h2⟩

theorem infLine_inj (h t h' t' : CppStr) (hh : ' ' ∉ h) (hh' : ' ' ∉ h')
    (he : infLine h t = infLine h' t') : h = h' ∧ t = t' := by
  have hsep : " infected ".toList = ' ' :: "infected ".toList := rfl
  have he' : h ++ ' ' :: ("infected ".toList ++ t) =
      h' ++ ' ' :: ("infected ".toList ++ t') := by
    simpa [infLine, hsep] using he
  obtain ⟨h1, h2⟩ := split_first_space h h' _ _ hh hh' he'
  exact ⟨h1, List.append_cancel_left h2⟩

theorem logName_ne : infectionLogName ≠ transmissionLogName := by decide

theorem stolen_ne_trans : stolenDataName ≠ transmissionLogName := by decide

theorem stolen_ne_inf : stolenDataName ≠ infectionLogName := by decide

theorem count_SendPrompt_trEv (k u h t : CppStr) (hk : ' ' ∉ k) (hh : ' ' ∉ h) :
    (SendPrompt k u).count (trEv h t) = if k = h ∧ u = t then 1 else 0 := by
  have hinf : Event.writeLine infectionLogName (infLine k u) ≠ trEv h t := by
    intro hc
    rw [trEv] at hc
    injection hc with h1 _
    exact logName_ne h1
  by_cases hcond : k = h ∧ u = t
  · obtain ⟨rfl, rfl⟩ := hcond
    simp [SendPrompt, LogTransmission, LogInfection, trEv, List.count_cons,
      logName_ne]
  · have hline : transLine k u ≠ transLine h t := by
      intro hc
      exact hcond (transLine_inj k u h t hk hh hc)
    simp [SendPrompt, LogTransmission, LogInfection, List.count_cons,
      logName_ne, hline, hcond, trEv]

theorem count_SendPrompt_infEv (k u h t : CppStr) (hk : ' ' ∉ k) (hh : ' ' ∉ h) :
    (SendPrompt k u).count (infEv h t) = if k = h ∧ u = t then 1 else 0 := by
  have htr : Event.writeLine transmissionLogName (transLine k u) ≠ infEv h t := by
    intro hc
    rw [infEv] at hc
    injection hc with h1 _
    exact logName_ne h1.symm
  by_cases hcond : k = h ∧ u = t
  · obtain ⟨rfl, rfl⟩ := hcond
    simp [SendPrompt, LogTransmission, LogInfection, infEv, List.count_cons,
      Ne.symm logName_ne]
  · have hline : infLine k u ≠ infLine h t := by
      intro hc
      exact hcond (infLine_inj k u h t hk hh hc)
    simp [SendPrompt, LogTransmission, LogInfection, List.count_cons,
      Ne.symm logName_ne, hline, hcond, infEv]

theorem count_eq_one_nodup (s : List CppStr) (t : CppStr) (hn : s.Nodup)
    (ht : t ∈ s) : s.count t = 1 := by
  induction s with
  | nil => cases ht
  | cons a s ih =>
      obtain ⟨hna, hns⟩ := List.nodup_cons.mp hn
      rw [List.count_cons]
      rcases List.mem_cons.mp ht with rfl | hts
      · rw [List.count_eq_zero.mpr hna]
        simp
      · have hat : (a == t) = false := by
          refine beq_eq_false_iff_ne.mpr ?_
          intro hc
          subst hc
          exact hna hts
        rw [ih hns hts, hat]
        simp

theorem sum_map_ite_eq_count (s : List CppStr) (t : CppStr) :
    (s.map fun u => if u = t then 1 else 0).sum = s.count t := by
  induction s with
  | nil => rfl
  | cons a s ih =>
      simp only [List.map_cons, List.sum_cons, List.count_cons, ih, beq_iff_eq]
      by_cases ha : a = t
      · simp [ha, Nat.add_comm]
      · simp [ha]

theorem mem_edgesOf_cons (p : CppStr × List CppStr) (rest : TopoMap)
    (h t : CppStr) :
    (h, t) ∈ edgesOf (p :: rest) ↔
      (p.1 = h ∧ t ∈ p.2) ∨ (h, t) ∈ edgesOf rest := by
  simp only [edgesOf, List.flatMap_cons, List.mem_append, List.mem_map,
    Prod.mk.injEq]
  constructor
  · rintro (⟨u, hu, rfl, rfl⟩ | hm)
    · exact Or.inl ⟨rfl, hu⟩
    · exact Or.inr hm
  · rintro (⟨rfl, ht⟩ | hm)
    · exact Or.inl ⟨t, ht, rfl, rfl⟩
    · exact Or.inr hm

theorem keys_of_mem_edgesOf (m : TopoMap) (h t : CppStr)
    (he : (h, t) ∈ edgesOf m) : h ∈ keysOf m := by
  rcases List.mem_flatMap.mp he with ⟨p, hp, hpe⟩
  rcases List.mem_map.mp hpe with ⟨u, _, he'⟩
  have : p.1 = h := congrArg Prod.fst he'
  rw [keysOf]
  exact List.mem_map.mpr ⟨p, hp, this⟩

theorem count_propEvents_zero (m : TopoMap) (h t : CppStr) (ev : Event)
    (hblock : ∀ k u, ' ' ∉ k →
      (SendPrompt k u).count ev = if k = h ∧ u = t then 1 else 0)
    (hm : ∀ p ∈ m, ' ' ∉ p.1 ∧ p.1 ≠ h) :
    (propEvents m).count ev = 0 := by
  induction m with
  | nil => rfl
  | cons p rest ih =>
      have hp := hm p (List.mem_cons_self _ _)
      have hrest : ∀ q ∈ rest, ' ' ∉ q.1 ∧ q.1 ≠ h :=
        fun q hq => hm q (List.mem_cons_of_mem _ hq)
      simp only [propEvents, List.flatMap_cons, List.count_append]
      rw [show (rest.flatMap fun q => q.2.flatMap fun u => SendPrompt q.1 u) =
        propEvents rest from rfl, ih hrest]
      rw [count_flatMap_eq]
      have hz : ∀ u ∈ p.2, (SendPrompt p.1 u).count ev = 0 := by
        intro u _
        rw [hblock p.1 u hp.1]
        simp [hp.2]
      have : (p.2.map fun u => (SendPrompt p.1 u).count ev) =
          p.2.map fun _ => 0 := List.map_congr_left hz
      rw [this]
      simp

theorem count_propEvents_one (m : TopoMap) (h t : CppStr) (ev : Event)
    (hblock : ∀ k u, ' ' ∉ k →
      (SendPrompt k u).count ev = if k = h ∧ u = t then 1 else 0)
    (hhost : ∀ p ∈ m, ' ' ∉ p.1) (hkeys : (keysOf m).Nodup)
    (hnodup : ∀ p ∈ m, p.2.Nodup)
    (hedge : (h, t) ∈ edgesOf m) :
    (propEvents m).count ev = 1 := by
  induction m with
  | nil => simp [edgesOf] at hedge
  | cons p rest ih =>
      have hp1 := hhost p (List.mem_cons_self _ _)
      have hhostr : ∀ q ∈ rest, ' ' ∉ q.1 :=
        fun q hq => hhost q (List.mem_cons_of_mem _ hq)
      have hnodupr : ∀ q ∈ rest, q.2.Nodup :=
        fun q hq => hnodup q (List.mem_cons_of_mem _ hq)
      have hkeysr : (keysOf rest).Nodup ∧ p.1 ∉ keysOf rest := by
        rw [keysOf] at hkeys
        simp only [List.map_cons, List.nodup_cons] at hkeys
        exact ⟨hkeys.2, hkeys.1⟩
      simp only [propEvents, List.flatMap_cons, List.count_append]
      rw [show (rest.flatMap fun q => q.2.flatMap fun u => SendPrompt q.1 u) =
        propEvents rest from rfl]
      by_cases hk : p.1 = h
      · have ht : t ∈ p.2 := by
          rcases (mem_edgesOf_cons p rest h t).mp hedge with ⟨_, ht⟩ | hrest
          · exact ht
          · exact absurd (hk ▸ keys_of_mem_edgesOf rest h t hrest) hkeysr.2
        have hcb : ((p.2.flatMap fun u => SendPrompt p.1 u).count ev) = 1 := by
          rw [count_flatMap_eq]
          have : (p.2.map fun u => (SendPrompt p.1 u).count ev) =
              p.2.map fun u => if u = t then 1 else 0 := by
            refine List.map_congr_left ?_
            intro u _
            rw [hblock p.1 u hp1]
            simp [hk]
          rw [this, sum_map_ite_eq_count]
          exact count_eq_one_nodup _ _ (hnodup p (List.mem_cons_self _ _)) ht
        have hcr : (propEvents rest).count ev = 0 := by
          refine count_propEvents_zero rest h t ev hblock ?_
          intro q hq
          refine ⟨hhostr q hq, ?_⟩
          intro hc
          apply hkeysr.2
          rw [hk, ← hc]
          rw [keysOf]
          exact List.mem_map.mpr ⟨q, hq, rfl⟩
        rw [hcb, hcr]
      · have hcb : ((p.2.flatMap fun u => SendPrompt p.1 u).count ev) = 0 := by
          rw [count_flatMap_eq]
          have : (p.2.map fun u => (SendPrompt p.1 u).count ev) =
              p.2.map fun _ => 0 := by
            refine List.map_congr_left ?_
            intro u _
            rw [hblock p.1 u hp1]
            simp [hk]
          rw [this]
          simp
        have hedge' : (h, t) ∈ edgesOf rest := by
          rcases (mem_edgesOf_cons p rest h t).mp hedge with ⟨hc, _⟩ | hrest
          · exact absurd hc hk
          · exact hrest
        rw [hcb, ih hhostr hkeysr.1 hnodupr hedge']

theorem writeLine_not_mem_scanEvents (env : Env) (cs : List CppStr)
    (nm l : CppStr) (hnm : nm ≠ stolenDataName) :
    Event.writeLine nm l ∉ scanEvents env cs := by
  intro hmem
  rcases List.mem_flatMap.mp hmem with ⟨email, _, he⟩
  by_cases htr : IsAdversarialPrompt email = true
  · rw [if_pos htr] at he
    rw [ProcessAdversarialPrompt, List.append_assoc] at he
    rcases List.mem_append.mp he with he' | he'
    · rw [StealData] at he'
      rcases List.mem_cons.mp he' with hc | hc
      · cases hc
      · cases hdf : env.dataFile with
        | none => rw [hdf] at hc; cases hc
        | some ls =>
            rw [hdf] at hc
            rcases List.mem_map.mp hc with ⟨a, _, hc'⟩
            injection hc' with h1 _
            exact hnm h1.symm
    · rcases List.mem_append.mp he' with he'' | he''
      · rw [SendSpamEmails] at he''
        rcases List.mem_flatMap.mp he'' with ⟨c, _, hc⟩
        rcases List.mem_cons.mp hc with hc' | hc'
        · cases hc'
        · cases List.mem_singleton.mp hc'
      · rw [ReplicatePrompt] at he''
        rcases List.mem_flatMap.mp he'' with ⟨c, _, hc⟩
        rcases List.mem_cons.mp hc with hc' | hc'
        · cases hc'
        · cases List.mem_singleton.mp hc'
  · rw [if_neg htr] at he
    cases he

theorem edge_events_in_Run (env : Env) (h t : CppStr)
    (hedge : (h, t) ∈ edgesOf (Run env).connected_systems) :
    (Run env).trace.count (trEv h t) = 1 ∧
      (Run env).trace.count (infEv h t) = 1 ∧
      [trEv h t, infEv h t] <+ (Run env).trace := by
  have hm : (Run env).connected_systems =
      IdentifyConnectedSystems [] (linesOf env.systemsFile) :=
    Run_connected_systems env
  set m := IdentifyConnectedSystems [] (linesOf env.systemsFile) with hmdef
  rw [hm] at hedge
  have hhost : ∀ p ∈ m, ' ' ∉ p.1 :=
    build_entry_host _ _ (by intro p hp; cases hp)
  have hkeys : (keysOf m).Nodup :=
    build_keys_nodup _ _ (by simp [keysOf])
  have hnodup : ∀ p ∈ m, p.2.Nodup :=
    build_entry_nodup _ _ (by intro p hp; cases hp)
  have hh : ' ' ∉ h := by
    have hk := keys_of_mem_edgesOf m h t hedge
    rcases List.mem_map.mp hk with ⟨p, hp, he⟩
    exact he ▸ hhost p hp
  have hscan_tr : (scanEvents env (linesOf env.contactsFile)).count (trEv h t) = 0 :=
    List.count_eq_zero.mpr
      (writeLine_not_mem_scanEvents env _ _ _ stolen_ne_trans.symm)
  have hscan_inf : (scanEvents env (linesOf env.contactsFile)).count (infEv h t) = 0 :=
    List.count_eq_zero.mpr
      (writeLine_not_mem_scanEvents env _ _ _ stolen_ne_inf.symm)
  have hprop_tr : (propEvents m).count (trEv h t) = 1 :=
    count_propEvents_one m h t _
      (fun k u hk => count_SendPrompt_trEv k u h t hk hh)
      hhost hkeys hnodup hedge
  have hprop_inf : (propEvents m).count (infEv h t) = 1 :=
    count_propEvents_one m h t _
      (fun k u hk => count_SendPrompt_infEv k u h t hk hh)
      hhost hkeys hnodup hedge
  have hsub : [trEv h t, infEv h t] <+ propEvents m := by
    rcases List.mem_flatMap.mp hedge with ⟨p, hp, hpe⟩
    rcases List.mem_map.mp hpe with ⟨u, hu, he'⟩
    have hp1 : p.1 = h := congrArg Prod.fst he'
    have hut : u = t := congrArg Prod.snd he'
    have h1 : [trEv h t, infEv h t] <+ SendPrompt h t :=
      .cons _ (.cons₂ _ (.cons _ (.cons₂ _ .slnil)))
    have h2 : SendPrompt h t <+ p.2.flatMap fun v => SendPrompt p.1 v := by
      have he2 : SendPrompt h t = SendPrompt p.1 u := by rw [hp1, hut]
      rw [he2]
      exact sublist_flatMap_of_mem _ _ _ hu
    have h3 : (p.2.flatMap fun v => SendPrompt p.1 v) <+ propEvents m := by
      rw [propEvents]
      exact sublist_flatMap_of_mem m
        (fun q => q.2.flatMap fun v => SendPrompt q.1 v) p hp
    exact (h1.trans h2).trans h3
  rw [Run_trace env, ← hmdef]
  refine ⟨?_, ?_, ?_⟩
  · rw [List.count_append, hscan_tr, hprop_tr]
  · rw [List.count_append, hscan_inf, hprop_inf]
  · exact hsub.trans (List.sublist_append_right _ _)

/-- Environment with only a topology source holding the single edge `A B`. -/
def envA : Env := ⟨none, some ["A B".toList], none⟩

/-- Environment with a topology source holding edges `A B` and `A C`. -/
def envB : Env := ⟨none, some ["A B".toList, "A C".toList], none⟩

/-- Environment in which every input collaborator is missing. -/
def envEmpty : Env := ⟨none, none, none⟩

/-- Environment in which every input collaborator is present but empty. -/
def envBlank : Env := ⟨some [], some [], some []⟩

/-- The broadcast scenario of the spec: three contacts, one triggering. -/
def envBroadcast : Env :=
  ⟨some ["x_adversarial_keyword".toList, "y".toList, "z".toList], none, none⟩

/-- A well-formed topology line built from a `(host, neighbor)` pair. -/
def mkTopoLine (p : CppStr × CppStr) : CppStr := p.1 ++ ' ' :: p.2

/-- Duplicate-containing pair list used to exhibit set-collapse. -/
def dupPairs : List (CppStr × CppStr) :=
  [("A".toList, "B".toList), ("A".toList, "B".toList),
   ("A".toList, "C".toList)]

theorem flatMap_ite_eq_filter {α β : Type} (l : List α) (p : α → Bool)
    (f : α → List β) :
    (l.flatMap fun a => if p a then f a else []) = (l.filter p).flatMap f := by
  induction l with
  | nil => rfl
  | cons a l ih =>
      by_cases hp : p a = true
      · simp [List.flatMap_cons, List.filter_cons, hp, ih]
      · simp [List.flatMap_cons, List.filter_cons, hp, ih]

/-- Claim C1 counterexample: in a run whose topology has the single edge
`(A, B)`, `B` is a topology neighbor but is not a member of the
InfectionSet after the Propagate phase — `SendPrompt` never inserts into
`infected_systems`, so `is_infected` is false, contradicting the claim
that every neighbor is marked infected. -/
theorem C1_counterexample :
    "B".toList ∈ neighbors_of (Run envA).connected_systems "A".toList ∧
      is_infected (Run envA) "B".toList = false := by
  decide

/-- Claim C1 (amended): during the Propagate phase each topology edge
produces a transmission record followed by an infection record, but the
driver never calls the Infection Tracker's mark — `infected_systems` stays
empty for the whole run, and `is_infected` returns false for every system,
including every topology neighbor. -/
theorem C1_amended_no_mark (env : Env) (h t : CppStr)
    (hedge : (h, t) ∈ edgesOf (Run env).connected_systems) :
    (Run env).infected_systems = [] ∧
      (∀ x, is_infected (Run env) x = false) ∧
      [trEv h t, infEv h t] <+ (Run env).trace :=
  ⟨rfl, fun _ => rfl, (edge_events_in_Run env h t hedge).2.2⟩

/-- Witness for the amended claim C1 at the concrete edge `(A, B)`. -/
theorem C1_amended_no_mark_witness :
    (Run envA).infected_systems = [] ∧
      is_infected (Run envA) "B".toList = false ∧
      [trEv "A".toList "B".toList, infEv "A".toList "B".toList] <+
        (Run envA).trace := by
  have h := C1_amended_no_mark envA "A".toList "B".toList (by decide)
  exact ⟨h.1, h.2.1 _, h.2.2⟩

/-- Claim C2: for every run and every edge `(host, target)` of the built
topology graph, the run's output trace contains exactly one
transmission-ledger line `host ++ " -> " ++ target` and exactly one
infection-ledger line `host ++ " infected " ++ target`, and the
transmission event precedes the infection event. -/
theorem C2_ledger_per_edge (env : Env) (h t : CppStr)
    (hedge : (h, t) ∈ edgesOf (Run env).connected_systems) :
    (Run env).trace.count (trEv h t) = 1 ∧
      (Run env).trace.count (infEv h t) = 1 ∧
      [trEv h t, infEv h t] <+ (Run env).trace :=
  edge_events_in_Run env h t hedge

/-- Witness for claim C2 at the edge `(A, C)` of a two-edge topology. -/
theorem C2_ledger_per_edge_witness :
    ("A".toList, "C".toList) ∈ edgesOf (Run envB).connected_systems ∧
      ((Run envB).trace.count (trEv "A".toList "C".toList) = 1 ∧
        (Run envB).trace.count (infEv "A".toList "C".toList) = 1 ∧
        [trEv "A".toList "C".toList, infEv "A".toList "C".toList] <+
          (Run envB).trace) :=
  ⟨by decide, C2_ledger_per_edge envB "A".toList "C".toList (by decide)⟩

/-- Claim C3 counterexample: for the delimiter-free topology line `abc`,
`build()` does not record the empty string as a neighbor of `abc` — the
`size_t` wraparound of `npos + 1` makes `substr(npos + 1)` return the whole
line, so the recorded neighbor is `abc` itself. -/
theorem C3_counterexample :
    "abc".toList ∈
        neighbors_of (IdentifyConnectedSystems [] ["abc".toList]) "abc".toList ∧
      "".toList ∉
        neighbors_of (IdentifyConnectedSystems [] ["abc".toList]) "abc".toList := by
  decide

/-- Claim C3 (amended): for every topology-source line with no space,
`build()` records the whole line as the host and the whole line (not the
empty string) as that host's neighbor, because `npos + 1` wraps to `0` and
`substr(0)` is the full line; the neighbor is empty only when the line
itself is empty. -/
theorem C3_no_delimiter_amended (lines : List CppStr) (line : CppStr)
    (hmem : line ∈ lines) (hnsp : strFind line [' '] = none)
    (hlen : line.length ≤ NPOS) :
    parseTopoLine line = (line, line) ∧
      line ∈ neighbors_of (IdentifyConnectedSystems [] lines) line := by
  have hp := parseTopoLine_no_space line hnsp hlen
  refine ⟨hp, ?_⟩
  rw [mem_neighbors_build]
  exact Or.inl (List.mem_map.mpr ⟨line, hmem, hp⟩)

/-- Witness for the amended claim C3 at the concrete line `abc`. -/
theorem C3_no_delimiter_amended_witness :
    parseTopoLine "abc".toList = ("abc".toList, "abc".toList) ∧
      "abc".toList ∈
        neighbors_of (IdentifyConnectedSystems [] ["abc".toList]) "abc".toList :=
  C3_no_delimiter_amended ["abc".toList] "abc".toList (by decide) (by decide)
    (by decide)

/-- Claim C4: `IsAdversarialPrompt` is a pure function of its input and
returns true exactly when the fixed marker `adversarial_keyword` occurs as
a case-sensitive contiguous substring of the input, at any position; for
every string not containing the marker it returns false. -/
theorem C4_is_trigger_iff (s : CppStr) :
    IsAdversarialPrompt s = true ↔ advKeyword <:+: s := by
  rw [IsAdversarialPrompt]
  exact strFind_isSome_iff s advKeyword

/-- Claim C5: the run is a total function of the environment, every run
exits with status `0`, and when every input collaborator is missing (or
present but empty) the final state is exactly the initial empty state:
empty contact sequence, empty topology map, empty infection set, empty
output trace (hence empty ledgers). -/
theorem C5_graceful_degradation :
    (∀ env : Env, (mainFn env).2 = 0) ∧
      Run envEmpty = initState ∧ Run envBlank = initState :=
  ⟨fun _ => rfl, rfl, rfl⟩

/-- Claim C6: the scan loop invokes the Payload Executor once per
triggering contact occurrence, with that contact's message and the full
contact sequence; each invocation writes the fixed spam placeholder to
`<contact>_spam_email.txt` and `message ++ " replicated_prompt"` to
`<contact>_replicated_email.txt` for every contact of the sequence, not
only the triggering one. -/
theorem C6_broadcast (env : Env) (m c : CppStr)
    (hm : m ∈ linesOf env.contactsFile)
    (htr : IsAdversarialPrompt m = true)
    (hc : c ∈ linesOf env.contactsFile) :
    scanEvents env (linesOf env.contactsFile) =
      ((linesOf env.contactsFile).filter IsAdversarialPrompt).flatMap
        (ProcessAdversarialPrompt env (linesOf env.contactsFile)) ∧
      Event.write (c ++ spamSuffix) spamContent ∈ (Run env).trace ∧
      Event.write (c ++ replicatedSuffix) (m ++ replicatedMarker) ∈
        (Run env).trace := by
  refine ⟨flatMap_ite_eq_filter _ _ _, ?_, ?_⟩
  · rw [Run_trace]
    refine List.mem_append.mpr (Or.inl ?_)
    rw [scanEvents]
    refine List.mem_flatMap.mpr ⟨m, hm, ?_⟩
    rw [if_pos htr, ProcessAdversarialPrompt]
    refine List.mem_append.mpr (Or.inl (List.mem_append.mpr (Or.inr ?_)))
    rw [SendSpamEmails]
    refine List.mem_flatMap.mpr ⟨c, hc, ?_⟩
    exact List.mem_cons_of_mem _ (List.mem_singleton.mpr rfl)
  · rw [Run_trace]
    refine List.mem_append.mpr (Or.inl ?_)
    rw [scanEvents]
    refine List.mem_flatMap.mpr ⟨m, hm, ?_⟩
    rw [if_pos htr, ProcessAdversarialPrompt]
    refine List.mem_append.mpr (Or.inr ?_)
    rw [ReplicatePrompt]
    refine List.mem_flatMap.mpr ⟨c, hc, ?_⟩
    exact List.mem_cons_of_mem _ (List.mem_singleton.mpr rfl)

/-- Witness for claim C6 at the spec's broadcast scenario: the trigger is
`x_adversarial_keyword` and the non-triggering contact `z` still receives
both sinks. -/
theorem C6_broadcast_witness :
    Event.write ("z".toList ++ spamSuffix) spamContent ∈
        (Run envBroadcast).trace ∧
      Event.write ("z".toList ++ replicatedSuffix)
        ("x_adversarial_keyword".toList ++ replicatedMarker) ∈
        (Run envBroadcast).trace := by
  have h := C6_broadcast envBroadcast "x_adversarial_keyword".toList "z".toList
    (by decide) (by decide) (by decide)
  exact ⟨h.2.1, h.2.2⟩

/-- Claim C7: for every sequence of well-formed `host<space>neighbor`
topology lines (hosts containing no space), after `build()` a string is a
neighbor of a host exactly when the corresponding pair occurred in the
input, duplicate lines collapse to a single set entry (the neighbor list
is duplicate-free), and a host never mentioned as a first field is absent
from the mapping. -/
theorem C7_build_exact (pairs : List (CppStr × CppStr))
    (hwf : ∀ p ∈ pairs, ' ' ∉ p.1 ∧ p.1.length + 1 < 2 ^ 64) :
    (∀ h n,
      n ∈ neighbors_of (IdentifyConnectedSystems [] (pairs.map mkTopoLine)) h ↔
        (h, n) ∈ pairs) ∧
      (∀ h, (∀ p ∈ pairs, p.1 ≠ h) →
        lookupTopo (IdentifyConnectedSystems [] (pairs.map mkTopoLine)) h =
          none) ∧
      (∀ h,
        (neighbors_of (IdentifyConnectedSystems [] (pairs.map mkTopoLine))
          h).Nodup) := by
  have hparse : (pairs.map mkTopoLine).map parseTopoLine = pairs := by
    rw [List.map_map]
    have hid : ∀ p ∈ pairs, (parseTopoLine ∘ mkTopoLine) p = p := by
      intro p hp
      obtain ⟨h, n⟩ := p
      exact parseTopoLine_wf h n (hwf _ hp).1 (hwf _ hp).2
    rw [List.map_congr_left hid]
    exact List.map_id' pairs
  refine ⟨?_, ?_, ?_⟩
  · intro h n
    rw [mem_neighbors_build, hparse]
    simp [neighbors_of, lookupTopo]
  · intro h habs
    rw [lookupTopo_build_absent]
    · rfl
    · intro l hl
      rcases List.mem_map.mp hl with ⟨p, hp, rfl⟩
      have : parseTopoLine (mkTopoLine p) = p := by
        obtain ⟨h', n'⟩ := p
        exact parseTopoLine_wf h' n' (hwf _ hp).1 (hwf _ hp).2
      rw [this]
      exact habs p hp
  · intro h
    cases hl : lookupTopo (IdentifyConnectedSystems [] (pairs.map mkTopoLine)) h with
    | none => simp [neighbors_of, hl]
    | some s =>
        have hmem := lookupTopo_mem _ _ _ hl
        have := build_entry_nodup (pairs.map mkTopoLine) []
          (by intro p hp; cases hp) _ hmem
        simpa [neighbors_of, hl] using this

/-- Witness for claim C7 on a pair list with a duplicate line. -/
theorem C7_build_exact_witness :
    "B".toList ∈
        neighbors_of (IdentifyConnectedSystems [] (dupPairs.map mkTopoLine))
          "A".toList ∧
      lookupTopo (IdentifyConnectedSystems [] (dupPairs.map mkTopoLine))
          "Z".toList = none ∧
      (neighbors_of (IdentifyConnectedSystems [] (dupPairs.map mkTopoLine))
        "A".toList).Nodup := by
  have hwf : ∀ p ∈ dupPairs, ' ' ∉ p.1 ∧ p.1.length + 1 < 2 ^ 64 := by decide
  exact ⟨((C7_build_exact dupPairs hwf).1 _ _).mpr (by decide),
    (C7_build_exact dupPairs hwf).2.1 _ (by decide),
    (C7_build_exact dupPairs hwf).2.2 _⟩

/-- Claim C8: after `build()` (and still at the end of every run), every
host key present in the topology mapping has a non-empty neighbor set — a
host with no recorded neighbors is absent, never present with an empty
set. -/
theorem C8_no_empty_neighbor_sets (lines : List CppStr) (env : Env) :
    (∀ p ∈ IdentifyConnectedSystems [] lines, p.2 ≠ []) ∧
      (∀ p ∈ (Run env).connected_systems, p.2 ≠ []) := by
  constructor
  · exact build_entry_ne_nil lines [] (by intro p hp; cases hp)
  · rw [Run_connected_systems]
    exact build_entry_ne_nil _ [] (by intro p hp; cases hp)

/-- Witness for claim C8 at the concrete single-edge topology `A B`. -/
theorem C8_no_empty_neighbor_sets_witness :
    ("A".toList, ["B".toList]) ∈ IdentifyConnectedSystems [] ["A B".toList] ∧
      ("A".toList, ["B".toList]).2 ≠ ([] : List CppStr) :=
  ⟨by decide,
    (C8_no_empty_neighbor_sets ["A B".toList] envEmpty).1 _ (by decide)⟩

/-- Claim C9: the contact sequence and the topology graph are written only
by the Init phase; the Scan and Propagate phases leave both fields of the
state unchanged, so their values at process exit equal their values right
after initialization. -/
theorem C9_frame (env : Env) (s : WormState) :
    (scanPhase env s).contacts = s.contacts ∧
      (scanPhase env s).connected_systems = s.connected_systems ∧
      (propagatePhase s).contacts = s.contacts ∧
      (propagatePhase s).connected_systems = s.connected_systems ∧
      (Run env).contacts = (Initialize env initState).contacts ∧
      (Run env).connected_systems =
        (Initialize env initState).connected_systems :=
  ⟨rfl, rfl, rfl, rfl, rfl, rfl⟩

/-- Claim C10: `StealData` opens (creating or truncating) the
captured-data sink as its first observable action in every environment,
before the availability check; when the source-data collaborator is
missing it performs no other action — no line is copied and no failure is
raised, leaving an empty `stolen_data.txt` behind. -/
theorem C10_capture_creates_sink (env : Env) :
    (StealData env).head? = some (Event.openTrunc stolenDataName) ∧
      (env.dataFile = none →
        StealData env = [Event.openTrunc stolenDataName]) := by
  constructor
  · rfl
  · intro hdf
    simp [StealData, hdf]

/-- Witness for claim C10 in the all-missing environment. -/
theorem C10_capture_creates_sink_witness :
    (StealData envEmpty).head? = some (Event.openTrunc stolenDataName) ∧
      StealData envEmpty = [Event.openTrunc stolenDataName] :=
  ⟨(C10_capture_creates_sink envEmpty).1,
    (C10_capture_creates_sink envEmpty).2 rfl⟩

end MorrisII
